import Mathlib

/-!
Verification of the OpenTrustworthyLearningUnderUncertainty runtime
trust-and-safety layer.

The Python sources are shallowly embedded over exact rational arithmetic
(`ℚ` in place of IEEE floats).  Mutable objects become explicit state
records that operations thread through; functions that `raise` return
`Except`; wall-clock reads (`time.time()`) and externally supplied values
(random draws of the bootstrap resampler, `scipy` quantile functions,
the MD5 hash) become explicit parameters, so every definition stays
executable.  `float("inf")` is modelled by `WithTop ℚ` where it can occur
(conformal quantiles) and by `Option ℚ` where the code can produce `NaN`
(confidence-interval fields).
-/

namespace OpenTLU

/-- Python `max(list)` with the `if list else 0.0` guard used by
`MitigationController.step` (`controller.py`). -/
def listMax : List ℚ → ℚ
  | [] => 0
  | x :: xs => xs.foldl max x

/-- Insert into a sorted list; auxiliary for `sortQ`. -/
def insertSorted (x : ℚ) : List ℚ → List ℚ
  | [] => [x]
  | y :: ys => if x ≤ y then x :: y :: ys else y :: insertSorted x ys

/-- Ascending sort of rationals (numpy sorts before interpolating a
quantile; any comparison sort produces the same sorted list). -/
def sortQ (l : List ℚ) : List ℚ := l.foldr insertSorted []

/-- `np.quantile(l, q)` with the default linear interpolation:
index `h = q·(n−1)`, value `s[⌊h⌋] + (h−⌊h⌋)·(s[⌊h⌋+1] − s[⌊h⌋])`
on the sorted data (empty input is never queried by the embedded code;
it returns 0 here). -/
def npQuantile (l : List ℚ) (q : ℚ) : ℚ :=
  match sortQ l with
  | [] => 0
  | s =>
    let n := s.length
    let h : ℚ := q * ((n : ℚ) - 1)
    let i : ℕ := (max 0 ⌊h⌋).toNat
    let lo := s.getD (min i (n - 1)) 0
    let hi := s.getD (min (i + 1) (n - 1)) 0
    lo + (h - (i : ℚ)) * (hi - lo)

/-- `np.percentile(l, p)` = `np.quantile(l, p/100)`. -/
def npPercentile (l : List ℚ) (p : ℚ) : ℚ := npQuantile l (p / 100)

/-- `np.mean` of a list (0 on the empty list is never used by the
embedded call sites). -/
def npMean (l : List ℚ) : ℚ := l.sum / (l.length : ℚ)

/-! ## Mitigation state machine (`runtime/controller.py`) -/

/-- `MitigationState` from `foundations/contracts.py`: the five-state
escalation ladder. -/
inductive MitigationState
  | nominal
  | cautious
  | fallback
  | safeStop
  | humanEscalation
  deriving DecidableEq, Repr

/-- `MonitorOutput` from `foundations/contracts.py`. -/
structure MonitorOutput where
  monitor_id : String
  triggered : Bool
  severity : ℚ
  message : String
  timestamp : ℚ
  deriving DecidableEq, Repr

/-- `MitigationController` (`runtime/controller.py`): monitors are the
functions their `check` methods denote, over an abstract state type σ. -/
structure MitigationController (σ : Type) where
  monitors : List (σ → MonitorOutput)
  uncertainty_threshold : ℚ := 1/2
  ood_threshold : ℚ := 4/5
  current_state : MitigationState := .nominal

/-- `MitigationController.step`: checks the monitors, takes the maximal
severity (0 when there are no monitors), then walks the if/elif ladder of
the source, storing and returning the new state. -/
def MitigationController.step {σ : Type} (c : MitigationController σ)
    (state : σ) (epistemic_score : ℚ) (ood_score : ℚ) :
    MitigationState × MitigationController σ :=
  let monitor_outputs := c.monitors.map (fun m => m state)
  let max_severity := listMax (monitor_outputs.map (·.severity))
  let new_state :=
    if max_severity ≥ 1 then MitigationState.safeStop
    else if ood_score > c.ood_threshold ∨ max_severity > 1/10 then
      MitigationState.fallback
    else if epistemic_score > c.uncertainty_threshold then
      MitigationState.cautious
    else MitigationState.nominal
  (new_state, { c with current_state := new_state })

/-- The transition table exactly as the spec words it (first matching rule
in order), for comparison with the implementation. -/
def specTransition (s_max ood_score epistemic : ℚ)
    (ood_threshold uncertainty_threshold : ℚ) : MitigationState :=
  if s_max ≥ 1 then .safeStop
  else if ood_score > ood_threshold ∨ s_max > 1/10 then .fallback
  else if epistemic > uncertainty_threshold then .cautious
  else .nominal

/-! ## Monitors (`safety/monitors.py`) -/

/-- `ConstraintMonitor` configuration. -/
structure ConstraintMonitor where
  monitor_id : String
  limit : ℚ
  metric_key : String

/-- `ConstraintMonitor.check`: the observation dictionary is an
association list; a missing `metric_key` reads as `0.0`
(`state.get(self.metric_key, 0.0)`).  `time.time()` is the explicit
`now` argument; the formatted message text is abbreviated. -/
def ConstraintMonitor.check (m : ConstraintMonitor)
    (state : List (String × ℚ)) (now : ℚ) : MonitorOutput :=
  let value := (state.lookup m.metric_key).getD 0
  let triggered := decide (value > m.limit)
  let severity0 := if triggered then (value - m.limit) / m.limit else 0
  let severity := min (max severity0 0) 1
  { monitor_id := m.monitor_id
    triggered := triggered
    severity := severity
    message := if triggered then "Value exceeded limit" else "OK"
    timestamp := now }

/-! ## Conformal engine (`foundations/conformal.py`) -/

/-- `ConformalConfig` with its source defaults. -/
structure ConformalConfig where
  coverage : ℚ := 9/10
  min_calibration_size : ℕ := 100
  score_clip_percentile : ℚ := 99

/-- `ConformalResult`.  `quantile` is `WithTop ℚ` because the source
stores `float("inf")` in the uncalibrated case. -/
structure ConformalResult where
  prediction_set : List ℕ
  set_size : ℕ
  coverage_probability : ℚ
  quantile : WithTop ℚ
  is_valid : Bool := true
  message : String := ""
  deriving DecidableEq, Repr

/-- `CalibrationData` (uuid and wall-clock timestamp omitted: they are
opaque identifiers never read by the embedded operations). -/
structure CalibrationData where
  quantile : WithTop ℚ
  coverage : ℚ
  n_samples : ℕ
  method : String
  deriving DecidableEq, Repr

/-- `compute_quantile(scores, coverage)`: the adjusted
`min((1−α)(1+1/n), 1)` quantile of the scores, `inf` on empty input. -/
def compute_quantile (scores : List ℚ) (coverage : ℚ) : WithTop ℚ :=
  if scores.length = 0 then ⊤
  else
    let n : ℚ := (scores.length : ℚ)
    let alpha := 1 - coverage
    let adjusted_level := min ((1 - alpha) * (1 + 1 / n)) 1
    (npQuantile scores adjusted_level : ℚ)

/-- `SplitConformalPredictor.fit`: rejects small calibration sets,
clips at the `score_clip_percentile` percentile, stores the adjusted
quantile.  `raise ValueError` becomes `Except.error`. -/
def splitFit (config : ConformalConfig) (nonconformity_scores : List ℚ) :
    Except String CalibrationData :=
  if nonconformity_scores.length < config.min_calibration_size then
    .error "Insufficient calibration samples"
  else
    let clip_value := npPercentile nonconformity_scores config.score_clip_percentile
    let scores := nonconformity_scores.map (fun s => min s clip_value)
    .ok { quantile := compute_quantile scores config.coverage
          coverage := config.coverage
          n_samples := scores.length
          method := "split_conformal" }

/-- Row-wise prediction set `{c : s_c ≤ q}` (`np.where(row <= q)[0]`). -/
def predictionSet (row : List ℚ) (q : WithTop ℚ) : List ℕ :=
  (row.enum.filter (fun p => (p.2 : WithTop ℚ) ≤ q)).map (·.1)

/-- `SplitConformalPredictor.predict`: on an uncalibrated predictor it
returns the single invalid placeholder result; otherwise one result per
sample row (`scores` is the N×C array, a 1-D input being the single-row
case after the source's reshape). -/
def splitPredict (config : ConformalConfig) (calibration : Option CalibrationData)
    (scores : List (List ℚ)) : List ConformalResult :=
  match calibration with
  | none =>
      [{ prediction_set := []
         set_size := 0
         coverage_probability := config.coverage
         quantile := ⊤
         is_valid := false
         message := "Predictor not calibrated. Call fit() first." }]
  | some cal =>
      scores.map (fun sample_scores =>
        let pset := predictionSet sample_scores cal.quantile
        { prediction_set := pset
          set_size := pset.length
          coverage_probability := cal.coverage
          quantile := cal.quantile
          is_valid := true })

/-- Mutable state of `AdaptiveConformalPredictor`: quantile starts at
`0.0` before any `fit`. -/
structure AdaptiveState where
  config : ConformalConfig := {}
  gamma : ℚ := 1/100
  quantile : ℚ := 0
  n_updates : ℕ := 0
  coverage_history : List ℚ := []

/-- `AdaptiveConformalPredictor.fit`: same size check as split, then the
quantile is initialised from the calibration scores (finite whenever the
check passed, so the `⊤` branch of `compute_quantile` is mapped to 0;
it is unreachable for a nonempty score list). -/
def adaptiveFit (p : AdaptiveState) (nonconformity_scores : List ℚ) :
    Except String AdaptiveState :=
  if nonconformity_scores.length < p.config.min_calibration_size then
    .error "Insufficient calibration samples"
  else
    let initial_quantile :=
      (compute_quantile nonconformity_scores p.config.coverage).getD 0
    .ok { p with quantile := initial_quantile
                 n_updates := 0
                 coverage_history := [] }

/-- `AdaptiveConformalPredictor.update`: the ACI online quantile step of
the source — `q ← q − γ·(1 − coverage)` when the true label is covered,
`q ← q + γ·coverage` otherwise, floored at 0; the running coverage
history records `float(covered)`. -/
def adaptiveUpdate (p : AdaptiveState) (true_label : ℤ)
    (prediction_set : List ℤ) : AdaptiveState :=
  let covered := true_label ∈ prediction_set
  let target := p.config.coverage
  let q :=
    if covered then p.quantile - p.gamma * (1 - target)
    else p.quantile + p.gamma * target
  { p with quantile := max 0 q
           n_updates := p.n_updates + 1
           coverage_history :=
             p.coverage_history ++ [if covered then 1 else 0] }

/-- `AdaptiveConformalPredictor.predict`: always reports
`is_valid=True`, using whatever the current quantile is (0 before any
successful `fit`). -/
def adaptivePredict (p : AdaptiveState) (scores : List (List ℚ)) :
    List ConformalResult :=
  scores.map (fun sample_scores =>
    let pset := predictionSet sample_scores (p.quantile : WithTop ℚ)
    { prediction_set := pset
      set_size := pset.length
      coverage_probability := p.config.coverage
      quantile := (p.quantile : WithTop ℚ)
      is_valid := true })

/-- `MondrianConformalPredictor.fit`: requires labels, checks the length
match, then stores one quantile per class with the global fallback for
classes holding fewer than 10 calibration points.  There is no
`min_calibration_size` check on this path in the source. -/
def mondrianFit (config : ConformalConfig) (nonconformity_scores : List ℚ)
    (labels : Option (List ℤ)) : Except String (List (ℤ × WithTop ℚ)) :=
  match labels with
  | none => .error "Mondrian conformal requires labels for class-conditional calibration"
  | some ls =>
      if nonconformity_scores.length ≠ ls.length then
        .error "Scores and labels must have same length"
      else
        let pairs := ls.zip nonconformity_scores
        let classes := ls.dedup
        .ok (classes.map (fun cls =>
          let cls_scores := (pairs.filter (fun p => p.1 = cls)).map (·.2)
          if cls_scores.length < 10 then
            (cls, compute_quantile nonconformity_scores config.coverage)
          else
            (cls, compute_quantile cls_scores config.coverage)))

/-- `MondrianConformalPredictor.predict` for the uncalibrated case (the
only branch a claim touches): empty class-quantile table gives the single
invalid placeholder, mirroring `splitPredict`. -/
def mondrianPredictUncalibrated (config : ConformalConfig) : List ConformalResult :=
  [{ prediction_set := []
     set_size := 0
     coverage_probability := config.coverage
     quantile := ⊤
     is_valid := false
     message := "Predictor not calibrated. Call fit() first." }]

/-! ## Safety filter (`safety/filter.py`) -/

/-- Dot product of rational vectors (`np.dot`; numpy broadcasting is not
exercised by the embedded call sites, both arguments share a length). -/
def dotQ (a b : List ℚ) : ℚ := ((a.zip b).map (fun p => p.1 * p.2)).sum

/-- Elementwise difference. -/
def subQ (a b : List ℚ) : List ℚ := (a.zip b).map (fun p => p.1 - p.2)

/-- Scalar multiple. -/
def smulQ (c : ℚ) (a : List ℚ) : List ℚ := a.map (fun x => c * x)

/-- Squared Euclidean norm; the source compares `‖Δx‖ < tol`, embedded
exactly as `‖Δx‖² < tol²` (equivalent for `tol ≥ 0`). -/
def sumSq (a : List ℚ) : ℚ := (a.map (fun x => x * x)).sum

/-- One sweep of `linear_constraint_project`'s inner `for i in range(len(b))`
loop: project onto each violated half-space `A[i]·x ≤ b[i]` in turn. -/
def projectRowsOnce (rows : List (List ℚ × ℚ)) (tolerance : ℚ) (x : List ℚ) :
    List ℚ :=
  rows.foldl (fun x r =>
    let violation := dotQ r.1 x - r.2
    if violation > tolerance then
      let norm_sq := dotQ r.1 r.1
      if norm_sq > 1/10000000000 then subQ x (smulQ (violation / norm_sq) r.1)
      else x
    else x) x

/-- The bounded outer loop of `linear_constraint_project`: up to
`max_iterations` sweeps, stopping early once `‖x − x_prev‖ < tolerance`. -/
def projectLoop (rows : List (List ℚ × ℚ)) (tolerance : ℚ) :
    ℕ → List ℚ → List ℚ
  | 0, x => x
  | fuel + 1, x =>
      let x' := projectRowsOnce rows tolerance x
      if sumSq (subQ x' x) < tolerance * tolerance then x'
      else projectLoop rows tolerance fuel x'

/-- `linear_constraint_project(action, constraint)` over the rows
`(A[i], b[i])`: a feasible point short-circuits with `(x, False)`,
otherwise the Dykstra-style sweeps run and `(x, True)` is returned. -/
def linear_constraint_project (action : List ℚ) (rows : List (List ℚ × ℚ))
    (max_iterations : ℕ := 100) (tolerance : ℚ := 1/1000000) :
    List ℚ × Bool :=
  let violations := rows.map (fun r => dotQ r.1 action - r.2)
  if violations.all (fun v => v ≤ tolerance) then (action, false)
  else (projectLoop rows tolerance max_iterations action, true)

/-- `np.linspace(0, 1, n)`. -/
def linspace01 (n : ℕ) : List ℚ :=
  if n = 0 then []
  else if n = 1 then [0]
  else (List.range n).map (fun i => (i : ℚ) / ((n : ℚ) - 1))

/-- `CBFFilter` over an abstract state type: the dynamics model and the
barrier are the functions the Python callables denote. -/
structure CBFFilterM (σ : Type) where
  dynamics : σ → List ℚ → σ
  h : σ → ℚ
  alpha : ℚ := 1

/-- `CBFFilter.is_safe`: discrete-time barrier condition
`h(f(x,a)) ≥ (1−α)·h(x)` with its margin. -/
def CBFFilterM.is_safe {σ : Type} (f : CBFFilterM σ) (state : σ)
    (action : List ℚ) : Bool × ℚ :=
  let next_state := f.dynamics state action
  let margin := f.h next_state - (1 - f.alpha) * f.h state
  (decide (margin ≥ 0), margin)

/-- The `for alpha in np.linspace(0, 1, n_samples)` line search of
`CBFFilter.filter_action`: first scaled action `(1−t)·a` that satisfies
the barrier wins, else the zero action. -/
def cbfSearch {σ : Type} (f : CBFFilterM σ) (state : σ) (action : List ℚ) :
    List ℚ → List ℚ × Bool × ℚ
  | [] => (List.replicate action.length 0, true, f.h state)
  | t :: ts =>
      if (f.is_safe state (smulQ (1 - t) action)).1 then
        (smulQ (1 - t) action, true, (f.is_safe state (smulQ (1 - t) action)).2)
      else cbfSearch f state action ts

/-- `CBFFilter.filter_action(state, action, n_samples)`. -/
def CBFFilterM.filter_action {σ : Type} (f : CBFFilterM σ) (state : σ)
    (action : List ℚ) (n_samples : ℕ := 10) : List ℚ × Bool × ℚ :=
  let sm := f.is_safe state action
  if sm.1 then (action, false, sm.2)
  else cbfSearch f state action (linspace01 n_samples)

/-! ## A/B testing (`evaluation/deployment.py`) -/

/-- The allocation ranges built by `ABTestRunner.__init__`:
`(name, current, current + fraction)` with a running total. -/
def buildRanges (allocation : List (String × ℚ)) : List (String × ℚ × ℚ) :=
  (allocation.foldl
    (fun acc nf => ((nf.1, acc.2, acc.2 + nf.2) :: acc.1, acc.2 + nf.2))
    ([], 0)).1.reverse

/-- `ABTestRunner._get_bucket`: hash the sticky value (a fresh random
string when the key is absent — the `rand` argument) into 10 000 buckets
and scan the ranges; fall back to the first variant.  `hashFn` stands for
`int(hashlib.md5(str(key).encode()).hexdigest(), 16)`. -/
def getBucket (hashFn : String → ℕ) (sticky_key : String)
    (ranges : List (String × ℚ × ℚ)) (context : List (String × String))
    (rand : String) : String :=
  let key := (context.lookup sticky_key).getD rand
  let hash_val := hashFn key
  let bucket_val : ℚ := ((hash_val % 10000 : ℕ) : ℚ) / 10000
  match ranges.find? (fun r => decide (r.2.1 ≤ bucket_val ∧ bucket_val < r.2.2)) with
  | some r => r.1
  | none => (ranges.headD ("", 0, 0)).1

/-- Per-variant mutable metrics of `ABTestRunner` (the parts `run`
touches).  Custom metrics are untouched by `run` and omitted. -/
structure ABTestMetrics where
  n_samples : ℕ := 0
  action_values : List (List ℚ) := []
  latencies_ms : List ℚ := []
  errors : ℕ := 0

/-- `ABTestRunner.run`: pick the variant by `_get_bucket`, execute its
policy (failures re-raise after counting an error), record latency and
action with the 10 000-entry retention bound.  The measured latency is an
explicit argument.  The metrics bag is a function from variant name. -/
def abRun (hashFn : String → ℕ) (sticky_key : String)
    (ranges : List (String × ℚ × ℚ))
    (policies : String → List (String × ℚ) → Except String (List ℚ))
    (observation : List (String × ℚ)) (context : List (String × String))
    (rand : String) (latency : ℚ) (metrics : String → ABTestMetrics) :
    Except String (List ℚ × String) × (String → ABTestMetrics) :=
  let variant := getBucket hashFn sticky_key ranges context rand
  match policies variant observation with
  | .ok action =>
      let m := metrics variant
      let appended := m.action_values ++ [action]
      let lats := m.latencies_ms ++ [latency]
      let trimmed :=
        if appended.length > 10000 then
          { m with n_samples := m.n_samples + 1
                   action_values := appended.drop 1
                   latencies_ms := lats.drop 1 }
        else
          { m with n_samples := m.n_samples + 1
                   action_values := appended
                   latencies_ms := lats }
      (.ok (action, variant),
       fun v => if v = variant then trimmed else metrics v)
  | .error e =>
      (.error e,
       fun v => if v = variant then
           { metrics variant with errors := (metrics variant).errors + 1 }
         else metrics v)

/-! ## Alert engine (`runtime/health.py`) -/

/-- `AlertRule` with the source defaults; `condition` is the callable
predicate and notification channels are side effects outside the claimed
behaviour (a channel failure is swallowed and never alters the returned
alerts). -/
structure AlertRule where
  name : String
  metric : String
  condition : ℚ → Bool
  threshold : ℚ
  severity : String := "warning"
  cooldown_seconds : ℚ := 300
  min_samples : ℕ := 10

/-- `Alert` (the formatted message text is abbreviated). -/
structure Alert where
  rule_name : String
  metric : String
  severity : String
  message : String
  value : ℚ
  threshold : ℚ
  timestamp : ℚ

/-- One `evaluate` call's view of the world: `time.time()` and the two
dictionaries that are passed in. -/
structure EvalCall where
  now : ℚ
  metrics : String → Option ℚ
  counts : String → ℕ

/-- The per-rule body of `AlertEngine.evaluate`: skip when the metric is
absent, under-sampled, the predicate is false, or the cooldown since
`_last_alert.get(rule.name, 0)` has not elapsed; otherwise emit the alert
and stamp `_last_alert[rule.name] = now`. -/
def evalRule (call : EvalCall) (last : String → ℚ) (rule : AlertRule) :
    Option Alert × (String → ℚ) :=
  match call.metrics rule.metric with
  | none => (none, last)
  | some value =>
      if call.counts rule.metric < rule.min_samples then (none, last)
      else if ¬ rule.condition value then (none, last)
      else if call.now - last rule.name < rule.cooldown_seconds then (none, last)
      else
        (some { rule_name := rule.name
                metric := rule.metric
                severity := rule.severity
                message := "threshold exceeded"
                value := value
                threshold := rule.threshold
                timestamp := call.now },
         fun n => if n = rule.name then call.now else last n)

/-- `AlertEngine.evaluate`: iterate the rules in order under one lock,
collecting the triggered alerts. -/
def evalRules (call : EvalCall) : List AlertRule → (String → ℚ) →
    List Alert × (String → ℚ)
  | [], last => ([], last)
  | rule :: rest, last =>
      let step := evalRule call last rule
      let tail := evalRules call rest step.2
      (step.1.toList ++ tail.1, tail.2)

/-- A sequence of `evaluate` calls against one engine, returning every
alert emitted, in order.  A fresh engine has `_last_alert = {}`, read
back through `.get(name, 0)`, i.e. the constant-0 map. -/
def runEngine (rules : List AlertRule) : (String → ℚ) → List EvalCall →
    List Alert
  | _, [] => []
  | last, call :: rest =>
      let step := evalRules call rules last
      step.1 ++ runEngine rules step.2 rest

/-! ## Statistical evaluator (`evaluation/statistics.py`) -/

/-- `MetricWithCI`; `Option ℚ` models float fields that can hold `NaN`
(`none`), which the empty-input path of `compute_metric_with_ci`
produces. -/
structure MetricWithCI where
  value : Option ℚ
  ci_lower : Option ℚ
  ci_upper : Option ℚ
  method : String
  n_samples : ℕ
  is_degenerate : Bool := false
  deriving DecidableEq, Repr

/-- The spec's MetricWithCI invariant: `ci_lower ≤ value ≤ ci_upper`
unless the degenerate flag is set (`NaN` comparisons are false). -/
def ciInvariant (m : MetricWithCI) : Bool :=
  m.is_degenerate ||
    (match m.value, m.ci_lower, m.ci_upper with
     | some v, some l, some u => decide (l ≤ v ∧ v ≤ u)
     | _, _, _ => false)

/-- `bootstrap_ci(data, stat_fn, n_bootstrap, alpha)`: the rng is the
explicit `draw` stream — `draw i` is the i-th resample's index list
(`rng.choice(data, size=n, replace=True)`), read back through the data.
Returns `(estimate, ci_lower, ci_upper)`, `NaN`s on empty data. -/
def bootstrap_ci (data : List ℚ) (stat_fn : List ℚ → ℚ) (n_bootstrap : ℕ)
    (alpha : ℚ) (draw : ℕ → List ℕ) : Option ℚ × Option ℚ × Option ℚ :=
  match data with
  | [] => (none, none, none)
  | d0 :: rest =>
      if rest.length = 0 then
        let val := stat_fn data
        (some val, some val, some val)
      else if data.all (fun x => x = d0) then
        let val := stat_fn data
        (some val, some val, some val)
      else
        let estimate := stat_fn data
        let bootstrap_stats := (List.range n_bootstrap).map
          (fun i => stat_fn ((draw i).map (fun j => data.getD j 0)))
        let ci_lower := npPercentile bootstrap_stats (100 * (alpha / 2))
        let ci_upper := npPercentile bootstrap_stats (100 * (1 - alpha / 2))
        (some estimate, some ci_lower, some ci_upper)

/-- `StatisticalEvaluator.compute_metric_with_ci` with `stat_fn` and the
resample stream explicit; `n_bootstrap` and `alpha` come from the
evaluator's configuration. -/
def compute_metric_with_ci (n_bootstrap : ℕ) (alpha : ℚ) (values : List ℚ)
    (stat_fn : List ℚ → ℚ) (draw : ℕ → List ℕ) : MetricWithCI :=
  match values with
  | [] => { value := none, ci_lower := none, ci_upper := none
            method := "none", n_samples := 0, is_degenerate := true }
  | v0 :: _ =>
      if values.all (fun x => x = v0) then
        { value := some v0, ci_lower := some v0, ci_upper := some v0
          method := "degenerate", n_samples := values.length
          is_degenerate := true }
      else
        let b := bootstrap_ci values stat_fn n_bootstrap alpha draw
        { value := b.1, ci_lower := b.2.1, ci_upper := b.2.2
          method := "bootstrap", n_samples := values.length }

/-- `wilson_ci(successes, n, alpha)`.  The two irrational ingredients are
explicit inputs: `z = Φ⁻¹(1−α/2)` and
`sq = √((p̂(1−p̂) + z²/4n)/n)` (the `np.sqrt` value). -/
def wilson_ci (successes n : ℕ) (z sq : ℚ) : ℚ × ℚ × ℚ :=
  if n = 0 then (0, 0, 0)
  else
    let p_hat : ℚ := (successes : ℚ) / (n : ℚ)
    let denominator := 1 + z ^ 2 / (n : ℚ)
    let center := (p_hat + z ^ 2 / (2 * (n : ℚ))) / denominator
    let margin := z * sq / denominator
    (p_hat, max 0 (center - margin), min 1 (center + margin))

/-- The radicand of `wilson_ci`'s `np.sqrt`. -/
def wilsonArg (successes n : ℕ) (z : ℚ) : ℚ :=
  let p_hat : ℚ := (successes : ℚ) / (n : ℚ)
  (p_hat * (1 - p_hat) + z ^ 2 / (4 * (n : ℚ))) / (n : ℚ)

/-- `exact_binomial_ci(successes, n, alpha)` with the two
`scipy.stats.beta.ppf` values as explicit inputs (`low_ppf` at `α/2` of
`Beta(s, n−s+1)`, `high_ppf` at `1−α/2` of `Beta(s+1, n−s)`). -/
def exact_binomial_ci (successes n : ℕ) (low_ppf high_ppf : ℚ) :
    ℚ × ℚ × ℚ :=
  if n = 0 then (0, 0, 0)
  else
    let p_hat : ℚ := (successes : ℚ) / (n : ℚ)
    (p_hat,
     if successes = 0 then 0 else low_ppf,
     if successes = n then 1 else high_ppf)

/-- `StatisticalEvaluator.compute_proportion_with_ci`: exact binomial
below 30 samples, Wilson otherwise. -/
def compute_proportion_with_ci (successes n : ℕ) (z sq low_ppf high_ppf : ℚ) :
    MetricWithCI :=
  if n = 0 then
    { value := some 0, ci_lower := some 0, ci_upper := some 0
      method := "none", n_samples := 0 }
  else if n < 30 then
    let r := exact_binomial_ci successes n low_ppf high_ppf
    { value := some r.1, ci_lower := some r.2.1, ci_upper := some r.2.2
      method := "exact_binomial", n_samples := n }
  else
    let r := wilson_ci successes n z sq
    { value := some r.1, ci_lower := some r.2.1, ci_upper := some r.2.2
      method := "wilson", n_samples := n }

/-- Population variance (`np.std` squared). -/
def popVar (l : List ℚ) : ℚ := npMean (l.map (fun x => (x - npMean l) ^ 2))

/-- The small-stratum fallback inside `aggregate_results`: mean ± 1.96
standard errors, where `np.std(values)/np.sqrt(len)` is
`sqrtFn (popVar values) / sqrtFn len` for the square-root evaluator
`sqrtFn`, and 0 for a single sample. -/
def stratumNormalApprox (sqrtFn : ℚ → ℚ) (values : List ℚ) : MetricWithCI :=
  let val := npMean values
  let std :=
    if values.length > 1 then sqrtFn (popVar values) / sqrtFn (values.length : ℚ)
    else 0
  { value := some val
    ci_lower := some (val - 49/25 * std)
    ci_upper := some (val + 49/25 * std)
    method := "normal_approx"
    n_samples := values.length }

/-! ## Auxiliary concrete objects used by witnesses -/

/-- `Except` success test (Python: "did not raise"). -/
def exceptOk {ε α : Type} : Except ε α → Bool
  | .ok _ => true
  | .error _ => false

/-- Concrete CBF instance for the C4 witness: scalar state, barrier
`h = id`, dynamics `f(x, a) = a₀ + 1/2`, α = 1. -/
def cbfW : CBFFilterM ℚ :=
  { dynamics := fun _ a => a.headD 0 + 1/2
    h := id
    alpha := 1 }

/-- Concrete rule for the C8 witness: fires on error rate above 1%. -/
def alertRuleW : AlertRule :=
  { name := "high_err"
    metric := "error_rate"
    condition := fun v => decide (v > 1/100)
    threshold := 1/100
    severity := "critical"
    cooldown_seconds := 300
    min_samples := 10 }

/-- Concrete evaluation call for the C8 witness. -/
def evalCallW (t : ℚ) : EvalCall :=
  { now := t
    metrics := fun k => if k = "error_rate" then some (1/2) else none
    counts := fun _ => 50 }

/-! ## Theorems -/

/-- C3: one `MitigationController.step` call returns exactly one of the
five `MitigationState` values, chosen by the spec's first-matching rule
on `(s_max, ood_score, epistemic)` — SafeStop when `s_max ≥ 1`, else
Fallback when `ood_score > ood_threshold ∨ s_max > 0.1`, else Cautious
when `epistemic > uncertainty_threshold`, else Nominal — and the
returned state does not depend on the controller's previous state, so
equal inputs always yield equal states. -/
theorem mitigation_step_spec {σ : Type} (c : MitigationController σ)
    (state : σ) (epistemic ood : ℚ) :
    ((c.step state epistemic ood).1 = MitigationState.nominal ∨
     (c.step state epistemic ood).1 = MitigationState.cautious ∨
     (c.step state epistemic ood).1 = MitigationState.fallback ∨
     (c.step state epistemic ood).1 = MitigationState.safeStop ∨
     (c.step state epistemic ood).1 = MitigationState.humanEscalation)
    ∧ (c.step state epistemic ood).1 =
        specTransition
          (listMax ((c.monitors.map (fun m => m state)).map (·.severity)))
          ood epistemic c.ood_threshold c.uncertainty_threshold
    ∧ ∀ prev : MitigationState,
        (MitigationController.step { c with current_state := prev }
            state epistemic ood).1 =
          (c.step state epistemic ood).1 := by
  refine ⟨?_, rfl, fun prev => rfl⟩
  have htot : ∀ s : MitigationState,
      s = MitigationState.nominal ∨ s = MitigationState.cautious ∨
      s = MitigationState.fallback ∨ s = MitigationState.safeStop ∨
      s = MitigationState.humanEscalation := by
    intro s; cases s <;> simp
  exact htot _

/-- C10: `ConstraintMonitor.check` on an observation missing the
configured `metric_key` behaves exactly as if the value were `0.0`, and
with a positive limit such an observation yields `triggered = false`
with severity `0`. -/
theorem constraint_monitor_missing_key (m : ConstraintMonitor)
    (state : List (String × ℚ)) (now : ℚ)
    (hmiss : state.lookup m.metric_key = none) :
    m.check state now = m.check [(m.metric_key, 0)] now
    ∧ (0 < m.limit →
        (m.check state now).triggered = false
        ∧ (m.check state now).severity = 0) := by
  have hv : (state.lookup m.metric_key).getD 0 = (0 : ℚ) := by
    rw [hmiss]; rfl
  have hl : (([(m.metric_key, (0 : ℚ))].lookup m.metric_key).getD 0) = (0 : ℚ) := by
    simp [List.lookup]
  refine ⟨?_, fun hlim => ?_⟩
  · simp only [ConstraintMonitor.check, hv, hl]
  · have hdec : decide ((state.lookup m.metric_key).getD 0 > m.limit) = false := by
      rw [hv]; exact decide_eq_false (lt_asymm hlim)
    refine ⟨?_, ?_⟩
    · simp only [ConstraintMonitor.check, hdec]
    · simp only [ConstraintMonitor.check, hdec]
      norm_num

/-- C10 witness: a monitor on key "speed" with limit 10 against an
observation lacking that key. -/
theorem constraint_monitor_missing_key_witness :
    ConstraintMonitor.check ⟨"mon", 10, "speed"⟩ [("other", 5)] 0 =
      ConstraintMonitor.check ⟨"mon", 10, "speed"⟩ [("speed", 0)] 0
    ∧ ((0 : ℚ) < 10 →
        (ConstraintMonitor.check ⟨"mon", 10, "speed"⟩ [("other", 5)] 0).triggered = false
        ∧ (ConstraintMonitor.check ⟨"mon", 10, "speed"⟩ [("other", 5)] 0).severity = 0) :=
  constraint_monitor_missing_key ⟨"mon", 10, "speed"⟩ [("other", 5)] 0 (by decide)

/-- C1 counterexample: with the default configuration
(coverage = 0.9, γ = 0.01) and stored quantile 1, a covered update moves
the quantile to `1 − γ·(1 − 0.9) = 0.999`, not to the claim's
`1 − γ·(1 − α) = 1 − γ·0.9 = 0.991` (with α = 1 − coverage = 0.1). -/
theorem adaptive_update_counterexample :
    (adaptiveUpdate { quantile := 1 } 0 [0]).quantile = 999/1000
    ∧ (adaptiveUpdate { quantile := 1 } 0 [0]).quantile ≠
        1 - 1/100 * (1 - (1 - 9/10)) := by
  have h : (adaptiveUpdate { quantile := 1 } 0 [0]).quantile = 999/1000 := by
    simp [adaptiveUpdate]
    norm_num [max_eq_right]
  exact ⟨h, by rw [h]; norm_num⟩

/-- C1 amended: writing α = 1 − coverage for the target miscoverage,
`update` sets the quantile to `q − γ·α` when the true label is covered
and to `q + γ·(1 − α)` otherwise, floored at 0 (so it is never
negative). -/
theorem adaptive_update_rule (p : AdaptiveState) (true_label : ℤ)
    (pset : List ℤ) :
    (adaptiveUpdate p true_label pset).quantile =
      max 0 (if true_label ∈ pset then
               p.quantile - p.gamma * (1 - p.config.coverage)
             else
               p.quantile + p.gamma * (1 - (1 - p.config.coverage)))
    ∧ 0 ≤ (adaptiveUpdate p true_label pset).quantile := by
  constructor
  · simp only [adaptiveUpdate]
    split <;> ring_nf
  · simp only [adaptiveUpdate]
    exact le_max_left 0 _

/-- C9: `SplitConformalPredictor.predict` on an uncalibrated predictor
returns exactly one invalid result (empty prediction set, quantile ∞)
whatever the number of input rows, so for any input with a row count
other than one the output length differs from the input length. -/
theorem split_predict_uncalibrated (config : ConformalConfig)
    (scores : List (List ℚ)) :
    splitPredict config none scores =
      [{ prediction_set := []
         set_size := 0
         coverage_probability := config.coverage
         quantile := ⊤
         is_valid := false
         message := "Predictor not calibrated. Call fit() first." }]
    ∧ (scores.length ≠ 1 →
        (splitPredict config none scores).length ≠ scores.length) := by
  refine ⟨rfl, fun h => ?_⟩
  simpa [splitPredict] using fun hc => h hc.symm

/-- C9 witness: two input rows still produce the single invalid result. -/
theorem split_predict_uncalibrated_witness :
    splitPredict {} none [[(1 : ℚ)], [2]] =
      [{ prediction_set := []
         set_size := 0
         coverage_probability := ({} : ConformalConfig).coverage
         quantile := ⊤
         is_valid := false
         message := "Predictor not calibrated. Call fit() first." }]
    ∧ (splitPredict {} none [[(1 : ℚ)], [2]]).length ≠
        ([[(1 : ℚ)], [2]] : List (List ℚ)).length :=
  ⟨(split_predict_uncalibrated {} [[(1 : ℚ)], [2]]).1,
   (split_predict_uncalibrated {} [[(1 : ℚ)], [2]]).2 (by decide)⟩

/-- C2 counterexample: a fresh (never fitted) `AdaptiveConformalPredictor`
answers `predict([[0.5]])` with a result whose `is_valid` field is
`true`, not `false` as the claim requires of every conformal predictor. -/
theorem adaptive_predict_uncalibrated_counterexample :
    (adaptivePredict {} [[1/2]]).map (·.is_valid) = [true] := by
  simp [adaptivePredict]

/-- C2 amended: the split and adaptive predictors' `fit` fails with the
insufficient-calibration error exactly when the score count is below
`min_calibration_size`; `predict` is total (never raises) on all three
predictors, and returns a single `is_valid = false` result on an
uncalibrated split or mondrian predictor — but the adaptive predictor's
`predict` always reports `is_valid = true`, even before any fit; the
mondrian `fit` checks only the presence of labels and the length match,
never `min_calibration_size`. -/
theorem conformal_error_handling :
    (∀ config : ConformalConfig, ∀ scores : List ℚ,
       exceptOk (splitFit config scores) =
         decide (config.min_calibration_size ≤ scores.length))
    ∧ (∀ p : AdaptiveState, ∀ scores : List ℚ,
       exceptOk (adaptiveFit p scores) =
         decide (p.config.min_calibration_size ≤ scores.length))
    ∧ (∀ config : ConformalConfig, ∀ scores : List (List ℚ),
       ∀ r ∈ splitPredict config none scores, r.is_valid = false)
    ∧ (∀ config : ConformalConfig,
       ∀ r ∈ mondrianPredictUncalibrated config, r.is_valid = false)
    ∧ (∀ p : AdaptiveState, ∀ scores : List (List ℚ),
       ∀ r ∈ adaptivePredict p scores, r.is_valid = true)
    ∧ (∀ config : ConformalConfig, ∀ scores : List ℚ, ∀ ls : List ℤ,
       exceptOk (mondrianFit config scores (some ls)) =
         decide (scores.length = ls.length)) := by
  refine ⟨?_, ?_, ?_, ?_, ?_, ?_⟩
  · intro config scores
    by_cases h : scores.length < config.min_calibration_size
    · simp [splitFit, h, exceptOk, Nat.not_le.mpr h]
    · simp [splitFit, h, exceptOk, Nat.not_lt.mp h]
  · intro p scores
    by_cases h : scores.length < p.config.min_calibration_size
    · simp [adaptiveFit, h, exceptOk, Nat.not_le.mpr h]
    · simp [adaptiveFit, h, exceptOk, Nat.not_lt.mp h]
  · intro config scores r hr
    simp [splitPredict] at hr
    rw [hr]
  · intro config r hr
    simp [mondrianPredictUncalibrated] at hr
    rw [hr]
  · intro p scores r hr
    simp [adaptivePredict] at hr
    obtain ⟨row, _, hrow⟩ := hr
    rw [← hrow]
  · intro config scores ls
    by_cases h : scores.length = ls.length
    · simp [mondrianFit, h, exceptOk]
    · simp [mondrianFit, h, exceptOk]

/-- C2 witness: exercising each clause at concrete inputs — an empty
calibration set fails `fit` for split and adaptive, a 100-point one
succeeds, a 5-point labelled set passes the mondrian `fit`, and
uncalibrated `predict`s behave per predictor. -/
theorem conformal_error_handling_witness :
    exceptOk (splitFit {} []) = decide ((100 : ℕ) ≤ 0)
    ∧ exceptOk (adaptiveFit {} []) = decide ((100 : ℕ) ≤ 0)
    ∧ (∀ r ∈ splitPredict {} none [[(1 : ℚ)]], r.is_valid = false)
    ∧ (∀ r ∈ mondrianPredictUncalibrated {}, r.is_valid = false)
    ∧ (∀ r ∈ adaptivePredict {} [[(1 : ℚ)]], r.is_valid = true)
    ∧ exceptOk (mondrianFit {} [1, 2, 3, 4, 5] (some [0, 0, 1, 1, 1])) =
        decide ((5 : ℕ) = 5) :=
  ⟨conformal_error_handling.1 {} [],
   conformal_error_handling.2.1 {} [],
   conformal_error_handling.2.2.1 {} [[(1 : ℚ)]],
   conformal_error_handling.2.2.2.1 {},
   conformal_error_handling.2.2.2.2.1 {} [[(1 : ℚ)]],
   conformal_error_handling.2.2.2.2.2 {} [1, 2, 3, 4, 5] [0, 0, 1, 1, 1]⟩

/-- C6: `linear_constraint_project` on a point satisfying `A·x ≤ b`
elementwise returns the point itself, exactly unchanged, and reports
`was_modified = false`; stated for any nonnegative tolerance, covering
the default `1e-6`. -/
theorem linear_project_feasible (action : List ℚ)
    (rows : List (List ℚ × ℚ)) (max_iterations : ℕ) (tolerance : ℚ)
    (htol : 0 ≤ tolerance)
    (hfeas : ∀ r ∈ rows, dotQ r.1 action ≤ r.2) :
    linear_constraint_project action rows max_iterations tolerance =
      (action, false) := by
  unfold linear_constraint_project
  have hall : (rows.map (fun r => dotQ r.1 action - r.2)).all
      (fun v => decide (v ≤ tolerance)) = true := by
    rw [List.all_eq_true]
    intro v hv
    rw [List.mem_map] at hv
    obtain ⟨r, hr, hrv⟩ := hv
    rw [decide_eq_true_eq, ← hrv]
    have := hfeas r hr
    linarith
  simp only [hall]
  simp

/-- C6 witness: the feasible point `[1, 2]` for the constraint
`x₁ ≤ 5` with the default iteration budget and tolerance. -/
theorem linear_project_feasible_witness :
    linear_constraint_project [(1 : ℚ), 2] [([1, 0], 5)] 100 (1/1000000) =
      ([(1 : ℚ), 2], false) :=
  linear_project_feasible [(1 : ℚ), 2] [([1, 0], 5)] 100 (1/1000000)
    (by norm_num)
    (by
      intro r hr
      simp at hr
      rw [hr]
      norm_num [dotQ])

/-- `is_safe` returns `true` exactly when the discrete barrier margin is
nonnegative, and its margin is that difference. -/
theorem is_safe_spec {σ : Type} (f : CBFFilterM σ) (state : σ) (a : List ℚ) :
    ((f.is_safe state a).1 = true ↔
      0 ≤ f.h (f.dynamics state a) - (1 - f.alpha) * f.h state)
    ∧ (f.is_safe state a).2 =
        f.h (f.dynamics state a) - (1 - f.alpha) * f.h state := by
  constructor
  · simp [CBFFilterM.is_safe, ge_iff_le]
  · rfl

/-- The CBF line search returns either the zero action or an action with
nonnegative barrier margin. -/
theorem cbfSearch_cases {σ : Type} (f : CBFFilterM σ) (state : σ)
    (action : List ℚ) : ∀ l : List ℚ,
    (cbfSearch f state action l).1 = List.replicate action.length 0 ∨
      0 ≤ f.h (f.dynamics state (cbfSearch f state action l).1) -
            (1 - f.alpha) * f.h state
  | [] => Or.inl rfl
  | t :: ts => by
      by_cases hs : (f.is_safe state (smulQ (1 - t) action)).1 = true
      · right
        have hmargin := (is_safe_spec f state (smulQ (1 - t) action)).1.mp hs
        simp only [cbfSearch, hs, if_true]
        exact hmargin
      · have hrec := cbfSearch_cases f state action ts
        simp only [cbfSearch, hs, if_false, Bool.false_eq_true]
        exact hrec

/-- The CBF line search is the first-match search the spec describes. -/
theorem cbfSearch_find {σ : Type} (f : CBFFilterM σ) (state : σ)
    (action : List ℚ) : ∀ l : List ℚ,
    cbfSearch f state action l =
      match l.find? (fun t => (f.is_safe state (smulQ (1 - t) action)).1) with
      | some t => (smulQ (1 - t) action, true,
          (f.is_safe state (smulQ (1 - t) action)).2)
      | none => (List.replicate action.length 0, true, f.h state)
  | [] => rfl
  | t :: ts => by
      rcases Bool.eq_false_or_eq_true
          ((f.is_safe state (smulQ (1 - t) action)).1) with hs | hs
      · rw [List.find?_cons_of_pos _ (by simpa using hs)]
        simp [cbfSearch, hs]
      · rw [List.find?_cons_of_neg _ (by simpa using hs)]
        have hrec := cbfSearch_find f state action ts
        simpa [cbfSearch, hs] using hrec

/-- C4: whenever `CBFFilter.filter_action` returns an action other than
the zero action, the barrier condition
`h(f(x, a')) ≥ (1 − α)·h(x) − 10⁻⁶` holds for the dynamics model's
prediction; and when the candidate action violates the condition, the
result is the first scaled action `(1 − t)·a`, `t` running over the
`n_samples` `linspace(0, 1)` fractions, that satisfies it — else the
zero action. -/
theorem cbf_filter_action_spec {σ : Type} (f : CBFFilterM σ) (state : σ)
    (action : List ℚ) (n_samples : ℕ) :
    ((f.filter_action state action n_samples).1 ≠
        List.replicate action.length 0 →
      f.h (f.dynamics state (f.filter_action state action n_samples).1) ≥
        (1 - f.alpha) * f.h state - 1/1000000)
    ∧ ((f.is_safe state action).1 = false →
      f.filter_action state action n_samples =
        match (linspace01 n_samples).find?
            (fun t => (f.is_safe state (smulQ (1 - t) action)).1) with
        | some t => (smulQ (1 - t) action, true,
            (f.is_safe state (smulQ (1 - t) action)).2)
        | none => (List.replicate action.length 0, true, f.h state)) := by
  constructor
  · intro hne
    by_cases hs : (f.is_safe state action).1 = true
    · have hmargin := (is_safe_spec f state action).1.mp hs
      have hact : (f.filter_action state action n_samples).1 = action := by
        simp only [CBFFilterM.filter_action, hs, if_true]
      rw [hact]
      rw [hact] at hne
      linarith
    · have hact : (f.filter_action state action n_samples).1 =
          (cbfSearch f state action (linspace01 n_samples)).1 := by
        simp only [CBFFilterM.filter_action, hs, if_false, Bool.false_eq_true]
      rw [hact] at hne ⊢
      rcases cbfSearch_cases f state action (linspace01 n_samples) with h | h
      · exact absurd h hne
      · linarith
  · intro hs
    have hs' : ¬ ((f.is_safe state action).1 = true) := by simp [hs]
    simp only [CBFFilterM.filter_action, hs', if_false, Bool.false_eq_true]
    exact cbfSearch_find f state action (linspace01 n_samples)

/-- C4 witness: the unsafe candidate `[-1]` is scaled to `[-1/2]`
(the fraction 1/2 of a three-point line search), which satisfies the
barrier condition and differs from the zero action. -/
theorem cbf_filter_action_spec_witness :
    cbfW.h (cbfW.dynamics 0 ((cbfW.filter_action 0 [(-1 : ℚ)] 3).1)) ≥
      (1 - cbfW.alpha) * cbfW.h 0 - 1/1000000
    ∧ cbfW.filter_action 0 [(-1 : ℚ)] 3 =
        match (linspace01 3).find?
            (fun t => (cbfW.is_safe 0 (smulQ (1 - t) [(-1 : ℚ)])).1) with
        | some t => (smulQ (1 - t) [(-1 : ℚ)], true,
            (cbfW.is_safe 0 (smulQ (1 - t) [(-1 : ℚ)])).2)
        | none => (List.replicate (List.length [(-1 : ℚ)]) 0, true, cbfW.h 0) :=
  ⟨(cbf_filter_action_spec cbfW 0 [(-1 : ℚ)] 3).1 (by
      norm_num [cbfW, CBFFilterM.filter_action, CBFFilterM.is_safe,
        cbfSearch, linspace01, smulQ, List.range_succ]),
   (cbf_filter_action_spec cbfW 0 [(-1 : ℚ)] 3).2 (by
      norm_num [cbfW, CBFFilterM.is_safe])⟩

/-- C7: with a fixed allocation, any two calls whose contexts carry the
same `sticky_key` value are assigned the same variant — `_get_bucket` is
a deterministic function of the key value and the ranges (independent of
the random fallback draw), and `run`'s variant, whatever the metric
state, is that same bucket. -/
theorem ab_sticky_assignment (hashFn : String → ℕ) (sticky_key : String)
    (ranges : List (String × ℚ × ℚ))
    (policies : String → List (String × ℚ) → Except String (List ℚ))
    (observation : List (String × ℚ))
    (ctx1 ctx2 : List (String × String)) (rand1 rand2 : String)
    (lat1 lat2 : ℚ) (st1 st2 : String → ABTestMetrics) (v : String)
    (h1 : ctx1.lookup sticky_key = some v)
    (h2 : ctx2.lookup sticky_key = some v) :
    getBucket hashFn sticky_key ranges ctx1 rand1 =
      getBucket hashFn sticky_key ranges ctx2 rand2
    ∧ (∀ a1 var1 a2 var2,
        (abRun hashFn sticky_key ranges policies observation ctx1 rand1
            lat1 st1).1 = .ok (a1, var1) →
        (abRun hashFn sticky_key ranges policies observation ctx2 rand2
            lat2 st2).1 = .ok (a2, var2) →
        var1 = var2) := by
  have hb : getBucket hashFn sticky_key ranges ctx1 rand1 =
      getBucket hashFn sticky_key ranges ctx2 rand2 := by
    unfold getBucket
    rw [h1, h2]
    rfl
  refine ⟨hb, fun a1 var1 a2 var2 hr1 hr2 => ?_⟩
  simp only [abRun] at hr1 hr2
  rw [hb] at hr1
  rcases hpol : policies (getBucket hashFn sticky_key ranges ctx2 rand2)
      observation with e | act <;> simp only [hpol] at hr1 hr2
  · simp at hr1
  · simp at hr1 hr2
    rw [← hr1.2, ← hr2.2]

/-- C7 witness: two different contexts and random draws carrying
`user_id = "u1"` under a 50/50 allocation receive the same variant. -/
theorem ab_sticky_assignment_witness :
    getBucket String.length "user_id"
      (buildRanges [("control", 1/2), ("candidate", 1/2)])
      [("user_id", "u1")] "r1" =
    getBucket String.length "user_id"
      (buildRanges [("control", 1/2), ("candidate", 1/2)])
      [("other", "x"), ("user_id", "u1")] "r2"
    ∧ (∀ a1 var1 a2 var2,
        (abRun String.length "user_id"
            (buildRanges [("control", 1/2), ("candidate", 1/2)])
            (fun _ _ => .ok [1]) [] [("user_id", "u1")] "r1" 3
            (fun _ => {})).1 = .ok (a1, var1) →
        (abRun String.length "user_id"
            (buildRanges [("control", 1/2), ("candidate", 1/2)])
            (fun _ _ => .ok [1]) [] [("other", "x"), ("user_id", "u1")] "r2" 7
            (fun _ => {})).1 = .ok (a2, var2) →
        var1 = var2) :=
  ab_sticky_assignment String.length "user_id"
    (buildRanges [("control", 1/2), ("candidate", 1/2)])
    (fun _ _ => .ok [1]) [] [("user_id", "u1")]
    [("other", "x"), ("user_id", "u1")] "r1" "r2" 3 7
    (fun _ => {}) (fun _ => {}) "u1" (by simp [List.lookup])
    (by simp [List.lookup])

/-- A single rule evaluation either leaves the engine unchanged with no
alert, or fires: then every gate (metric present, sample count, predicate,
cooldown against `_last_alert`) passed, the emitted alert carries the
call's timestamp, and only the rule's own `_last_alert` entry moves. -/
theorem evalRule_spec (call : EvalCall) (last : String → ℚ)
    (rule : AlertRule) :
    ((evalRule call last rule).1 = none ∧ (evalRule call last rule).2 = last)
    ∨ (∃ value,
        call.metrics rule.metric = some value ∧
        rule.min_samples ≤ call.counts rule.metric ∧
        rule.condition value = true ∧
        last rule.name + rule.cooldown_seconds ≤ call.now ∧
        (evalRule call last rule).1 =
          some { rule_name := rule.name
                 metric := rule.metric
                 severity := rule.severity
                 message := "threshold exceeded"
                 value := value
                 threshold := rule.threshold
                 timestamp := call.now } ∧
        (evalRule call last rule).2 =
          fun n => if n = rule.name then call.now else last n) := by
  rcases hm : call.metrics rule.metric with _ | value
  · exact Or.inl ⟨by simp [evalRule, hm], by simp [evalRule, hm]⟩
  · by_cases h1 : call.counts rule.metric < rule.min_samples
    · exact Or.inl ⟨by simp [evalRule, hm, h1], by simp [evalRule, hm, h1]⟩
    · by_cases h2 : rule.condition value = true
      · by_cases h3 : call.now - last rule.name < rule.cooldown_seconds
        · exact Or.inl ⟨by simp [evalRule, hm, h1, h2, h3],
            by simp [evalRule, hm, h1, h2, h3]⟩
        · refine Or.inr ⟨value, rfl, Nat.not_lt.mp h1, h2, ?_, ?_, ?_⟩
          · linarith [not_lt.mp h3]
          · simp [evalRule, hm, h1, h2, h3]
          · simp [evalRule, hm, h1, h2, h3]
      · exact Or.inl ⟨by simp [evalRule, hm, h1, h2], by simp [evalRule, hm, h1, h2]⟩

/-- Every alert emitted by one `evaluate` call carries the call's
timestamp and comes from a rule whose predicate held on the present
metric value with enough samples. -/
theorem evalRules_conditions (call : EvalCall) :
    ∀ (rules : List AlertRule) (last : String → ℚ),
    ∀ a ∈ (evalRules call rules last).1,
      a.timestamp = call.now ∧
      ∃ r ∈ rules, a.rule_name = r.name ∧
        call.metrics r.metric = some a.value ∧
        r.min_samples ≤ call.counts r.metric ∧
        r.condition a.value = true
  | [], last => by simp [evalRules]
  | rule :: rest, last => by
      intro a ha
      simp only [evalRules, List.mem_append] at ha
      rcases ha with ha | ha
      · rcases evalRule_spec call last rule with ⟨hn, _⟩ | ⟨v, hm, hcnt, hcond, _, hsome, _⟩
        · rw [hn] at ha; simp at ha
        · rw [hsome] at ha
          simp only [Option.toList_some, List.mem_singleton] at ha
          subst ha
          refine ⟨rfl, rule, List.mem_cons_self rule rest, rfl, ?_, hcnt, hcond⟩
          exact hm
      · obtain ⟨hts, r, hrmem, hrest⟩ :=
          evalRules_conditions call rest ((evalRule call last rule).2) a ha
        exact ⟨hts, r, List.mem_cons_of_mem rule hrmem, hrest⟩

/-- One `evaluate` call, viewed through a single rule name `R` with a
lower bound `c` on every `R`-rule's cooldown: an `R`-alert requires the
cooldown to have elapsed and stamps the entry to `now`; no `R`-alert
leaves the entry unchanged; two `R`-alerts in one call force `c ≤ 0`. -/
theorem evalRules_spec (call : EvalCall) (R : String) (c : ℚ) :
    ∀ (rules : List AlertRule) (last : String → ℚ),
    (∀ r ∈ rules, r.name = R → c ≤ r.cooldown_seconds) →
    (((∃ a ∈ (evalRules call rules last).1, a.rule_name = R) →
        last R + c ≤ call.now ∧ (evalRules call rules last).2 R = call.now)
     ∧ ((∀ a ∈ (evalRules call rules last).1, a.rule_name ≠ R) →
        (evalRules call rules last).2 R = last R)
     ∧ (2 ≤ ((evalRules call rules last).1.filter
          (fun a => decide (a.rule_name = R))).length → c ≤ 0))
  | [], last => by
      intro _
      refine ⟨?_, ?_, ?_⟩ <;> simp [evalRules]
  | rule :: rest, last => by
      intro hr
      have hrrest : ∀ r ∈ rest, r.name = R → c ≤ r.cooldown_seconds :=
        fun r hmem => hr r (List.mem_cons_of_mem rule hmem)
      have hrhead : rule.name = R → c ≤ rule.cooldown_seconds :=
        hr rule (List.mem_cons_self rule rest)
      rcases evalRule_spec call last rule with
        ⟨hn, hst⟩ | ⟨v, hm, hcnt, hcond, hcool, hsome, hst⟩
      · -- head rule did not fire: the call reduces to the tail
        have hsimp : evalRules call (rule :: rest) last = evalRules call rest last := by
          have : evalRules call (rule :: rest) last =
              ((evalRule call last rule).1.toList ++
                 (evalRules call rest ((evalRule call last rule).2)).1,
               (evalRules call rest ((evalRule call last rule).2)).2) := rfl
          rw [this, hn, hst]
          simp
        rw [hsimp]
        exact evalRules_spec call R c rest last hrrest
      · -- head rule fired
        have ihyp := evalRules_spec call R c rest ((evalRule call last rule).2) hrrest
        have hsimp : evalRules call (rule :: rest) last =
            ({ rule_name := rule.name
               metric := rule.metric
               severity := rule.severity
               message := "threshold exceeded"
               value := v
               threshold := rule.threshold
               timestamp := call.now } ::
               (evalRules call rest ((evalRule call last rule).2)).1,
             (evalRules call rest ((evalRule call last rule).2)).2) := by
          have : evalRules call (rule :: rest) last =
              ((evalRule call last rule).1.toList ++
                 (evalRules call rest ((evalRule call last rule).2)).1,
               (evalRules call rest ((evalRule call last rule).2)).2) := rfl
          rw [this, hsome]
          simp
        rw [hsimp]
        by_cases hname : rule.name = R
        · -- the fired alert is an R-alert
          have hupdR : (evalRule call last rule).2 R = call.now := by
            rw [hst]; simp [hname]
          have hlastc : last R + c ≤ call.now := by
            have := hrhead hname
            rw [← hname]
            linarith
          have htailst : (evalRules call rest ((evalRule call last rule).2)).2 R =
              call.now := by
            by_cases hex : ∃ a ∈ (evalRules call rest ((evalRule call last rule).2)).1,
                a.rule_name = R
            · exact (ihyp.1 hex).2
            · push_neg at hex
              rw [ihyp.2.1 (fun a ha => hex a ha), hupdR]
          refine ⟨fun _ => ⟨hlastc, htailst⟩, ?_, ?_⟩
          · intro hall
            have hthis := hall _ (List.mem_cons_self _ _)
            simp only at hthis
            exact absurd hname hthis
          · intro hlen
            simp [List.filter_cons, hname] at hlen
            have htail : 0 < ((evalRules call rest ((evalRule call last rule).2)).1.filter
                (fun a => decide (a.rule_name = R))).length := by omega
            obtain ⟨a, ha⟩ := List.exists_mem_of_length_pos htail
            have haR : a.rule_name = R := by
              have := List.of_mem_filter ha
              simpa using this
            have := (ihyp.1 ⟨a, List.mem_of_mem_filter ha, haR⟩).1
            rw [hupdR] at this
            linarith
        · -- the fired alert is not about R
          have hupdR : (evalRule call last rule).2 R = last R := by
            rw [hst]
            have hne : ¬ (R = rule.name) := fun h => hname h.symm
            simp [hne]
          refine ⟨?_, ?_, ?_⟩
          · intro hex
            obtain ⟨a, ha, haR⟩ := hex
            rcases List.mem_cons.mp ha with ha | ha
            · rw [ha] at haR
              exact absurd haR hname
            · have := ihyp.1 ⟨a, ha, haR⟩
              rw [hupdR] at this
              exact this
          · intro hall
            have : (evalRules call rest ((evalRule call last rule).2)).2 R =
                (evalRule call last rule).2 R := by
              apply ihyp.2.1
              intro a ha
              exact hall a (List.mem_cons_of_mem _ ha)
            rw [hupdR] at this
            exact this
          · intro hlen
            apply ihyp.2.2
            have hThe : (decide (rule.name = R)) = false := by
              simp [hname]
            simpa [List.filter_cons, hThe] using hlen

/-- Alerts that share one timestamp satisfy the cooldown-gap relation
whenever two of them force `c ≤ 0`. -/
theorem pairwise_of_const_ts (l : List Alert) (now c : ℚ)
    (hts : ∀ a ∈ l, a.timestamp = now) (h2 : 2 ≤ l.length → c ≤ 0) :
    List.Pairwise (fun a b => a.timestamp + c ≤ b.timestamp) l := by
  rcases l with _ | ⟨x, _ | ⟨y, t⟩⟩
  · exact List.Pairwise.nil
  · simp
  · have hc0 : c ≤ 0 := h2 (by simp)
    apply List.pairwise_of_forall_mem_list
    intro a ha b hb
    rw [hts a ha, hts b hb]
    linarith

/-- Firing conditions lifted over a sequence of `evaluate` calls. -/
theorem runEngine_conditions (rules : List AlertRule) :
    ∀ (inputs : List EvalCall) (last : String → ℚ),
    ∀ a ∈ runEngine rules last inputs,
      ∃ call ∈ inputs, a.timestamp = call.now ∧
        ∃ r ∈ rules, a.rule_name = r.name ∧
          call.metrics r.metric = some a.value ∧
          r.min_samples ≤ call.counts r.metric ∧
          r.condition a.value = true
  | [], last => by simp [runEngine]
  | call :: rest, last => by
      intro a ha
      simp only [runEngine, List.mem_append] at ha
      rcases ha with ha | ha
      · obtain ⟨hts, r, hrm, hrest⟩ := evalRules_conditions call rules last a ha
        exact ⟨call, List.mem_cons_self _ _, hts, r, hrm, hrest⟩
      · obtain ⟨call2, hc2, hres⟩ :=
          runEngine_conditions rules rest ((evalRules call rules last).2) a ha
        exact ⟨call2, List.mem_cons_of_mem _ hc2, hres⟩

/-- Cooldown invariant over a sequence of `evaluate` calls: the
`R`-alerts are spaced at least `c` apart and all fire no earlier than
`c` past the incoming `_last_alert` entry. -/
theorem runEngine_cooldown (rules : List AlertRule) (R : String) (c : ℚ)
    (hc : 0 ≤ c) (hr : ∀ r ∈ rules, r.name = R → c ≤ r.cooldown_seconds) :
    ∀ (inputs : List EvalCall) (last : String → ℚ),
    List.Pairwise (fun a b => a.timestamp + c ≤ b.timestamp)
      ((runEngine rules last inputs).filter (fun a => decide (a.rule_name = R)))
    ∧ (∀ a ∈ (runEngine rules last inputs).filter
          (fun a => decide (a.rule_name = R)),
        last R + c ≤ a.timestamp)
  | [], last => by simp [runEngine]
  | call :: rest, last => by
      have hcall := evalRules_spec call R c rules last hr
      have ih := runEngine_cooldown rules R c hc hr rest
        ((evalRules call rules last).2)
      have hsplit : (runEngine rules last (call :: rest)).filter
          (fun a => decide (a.rule_name = R)) =
          ((evalRules call rules last).1.filter
            (fun a => decide (a.rule_name = R))) ++
          ((runEngine rules ((evalRules call rules last).2) rest).filter
            (fun a => decide (a.rule_name = R))) := by
        simp [runEngine, List.filter_append]
      have hAts : ∀ a ∈ (evalRules call rules last).1.filter
          (fun a => decide (a.rule_name = R)), a.timestamp = call.now := by
        intro a ha
        exact (evalRules_conditions call rules last a
          (List.mem_of_mem_filter ha)).1
      have hAR : ∀ a ∈ (evalRules call rules last).1.filter
          (fun a => decide (a.rule_name = R)), a.rule_name = R := by
        intro a ha
        have := List.of_mem_filter ha
        simpa using this
      rw [hsplit]
      by_cases hA : ((evalRules call rules last).1.filter
          (fun a => decide (a.rule_name = R))) = []
      · -- no R-alert this call: state entry unchanged
        have hnone : ∀ a ∈ (evalRules call rules last).1, a.rule_name ≠ R := by
          intro a ha haR
          have : a ∈ (evalRules call rules last).1.filter
              (fun a => decide (a.rule_name = R)) :=
            List.mem_filter.mpr ⟨ha, by simp [haR]⟩
          rw [hA] at this
          exact absurd this (List.not_mem_nil a)
        have hstR : (evalRules call rules last).2 R = last R := hcall.2.1 hnone
        rw [hA]
        simp only [List.nil_append]
        refine ⟨ih.1, fun a ha => ?_⟩
        have := ih.2 a ha
        rw [hstR] at this
        exact this
      · -- at least one R-alert fired this call
        have hex : ∃ a ∈ (evalRules call rules last).1, a.rule_name = R := by
          obtain ⟨a, ha⟩ := List.exists_mem_of_length_pos
            (List.length_pos_of_ne_nil hA)
          exact ⟨a, List.mem_of_mem_filter ha, hAR a ha⟩
        obtain ⟨hlastc, hstR⟩ := hcall.1 hex
        rw [List.pairwise_append]
        refine ⟨⟨?_, ih.1, ?_⟩, ?_⟩
        · exact pairwise_of_const_ts _ call.now c hAts hcall.2.2
        · intro a ha b hb
          rw [hAts a ha]
          have := ih.2 b hb
          rw [hstR] at this
          exact this
        · intro a ha
          rcases List.mem_append.mp ha with ha | ha
          · rw [hAts a ha]
            exact hlastc
          · have := ih.2 a ha
            rw [hstR] at this
            linarith

/-- C8: in any sequence of `AlertEngine.evaluate` calls on a fresh
engine, a rule named `R` (every rule of that name having cooldown at
least `c ≥ 0`) never fires twice within `c`: successive `R`-alerts have
timestamps at least `c` apart; and every emitted alert comes from a rule
whose predicate held on the present metric value whose sample count met
`min_samples`. -/
theorem alert_cooldown_spec (rules : List AlertRule)
    (inputs : List EvalCall) (R : String) (c : ℚ) (hc : 0 ≤ c)
    (hr : ∀ r ∈ rules, r.name = R → c ≤ r.cooldown_seconds) :
    List.Pairwise (fun a b => a.timestamp + c ≤ b.timestamp)
      ((runEngine rules (fun _ => 0) inputs).filter
        (fun a => decide (a.rule_name = R)))
    ∧ (∀ a ∈ runEngine rules (fun _ => 0) inputs,
        ∃ call ∈ inputs, a.timestamp = call.now ∧
          ∃ r ∈ rules, a.rule_name = r.name ∧
            call.metrics r.metric = some a.value ∧
            r.min_samples ≤ call.counts r.metric ∧
            r.condition a.value = true) :=
  ⟨(runEngine_cooldown rules R c hc hr inputs (fun _ => 0)).1,
   runEngine_conditions rules inputs (fun _ => 0)⟩

/-- C8 witness: two evaluations 100 s apart under a 300 s cooldown. -/
theorem alert_cooldown_spec_witness :
    List.Pairwise (fun a b => a.timestamp + 300 ≤ b.timestamp)
      ((runEngine [alertRuleW] (fun _ => 0)
          [evalCallW 1000, evalCallW 1100]).filter
        (fun a => decide (a.rule_name = "high_err")))
    ∧ (∀ a ∈ runEngine [alertRuleW] (fun _ => 0)
          [evalCallW 1000, evalCallW 1100],
        ∃ call ∈ [evalCallW 1000, evalCallW 1100], a.timestamp = call.now ∧
          ∃ r ∈ [alertRuleW], a.rule_name = r.name ∧
            call.metrics r.metric = some a.value ∧
            r.min_samples ≤ call.counts r.metric ∧
            r.condition a.value = true) :=
  alert_cooldown_spec [alertRuleW] [evalCallW 1000, evalCallW 1100]
    "high_err" 300 (by norm_num)
    (by
      intro r hrm _
      simp at hrm
      rw [hrm]
      norm_num [alertRuleW])

/-- Population variance is nonnegative. -/
theorem popVar_nonneg (l : List ℚ) : 0 ≤ popVar l := by
  unfold popVar npMean
  apply div_nonneg
  · apply List.sum_nonneg
    intro x hx
    rw [List.mem_map] at hx
    obtain ⟨y, _, hy⟩ := hx
    rw [← hy]
    positivity
  · positivity

/-- The algebraic core of the Wilson interval: the offset of the center
from `p̂` is dominated by the margin numerator. -/
theorem wilson_abs_bound (z sqv N p : ℚ) (hN : 0 < N) (hz : 0 ≤ z)
    (hsq : 0 ≤ sqv) (harg : sqv * sqv = (p * (1 - p) + z^2 / (4 * N)) / N)
    (hp0 : 0 ≤ p) (hp1 : p ≤ 1) :
    (z^2 / N) * (1/2 - p) ≤ z * sqv ∧
    -(z * sqv) ≤ (z^2 / N) * (1/2 - p) := by
  have hz2 : (z * sqv)^2 = z^2 * ((p * (1 - p) + z^2 / (4 * N)) / N) := by
    have h : (z * sqv)^2 = z^2 * (sqv * sqv) := by ring
    rw [h, harg]
  have expand : (z * sqv)^2 - ((z^2 / N) * (1/2 - p))^2 =
      (z^2 / N) * (p * (1 - p)) * (1 + z^2 / N) := by
    rw [hz2]
    field_simp
    ring
  have hprod : 0 ≤ (z^2 / N) * (p * (1 - p)) * (1 + z^2 / N) := by
    apply mul_nonneg
    · apply mul_nonneg
      · positivity
      · apply mul_nonneg hp0
        linarith
    · positivity
  have hkey : ((z^2 / N) * (1/2 - p))^2 ≤ (z * sqv)^2 := by linarith
  have hb : 0 ≤ z * sqv := mul_nonneg hz hsq
  constructor
  · exact le_of_pow_le_pow_left₀ two_ne_zero hb hkey
  · have hneg : (-((z^2 / N) * (1/2 - p)))^2 ≤ (z * sqv)^2 := by
      rw [neg_pow]
      simpa using hkey
    have := le_of_pow_le_pow_left₀ two_ne_zero hb hneg
    linarith

/-- The Wilson interval always contains the observed proportion. -/
theorem wilson_ci_contains (successes n : ℕ) (z sq : ℚ) (hn : n ≠ 0)
    (hsn : successes ≤ n) (hz : 0 ≤ z) (hsq : 0 ≤ sq)
    (harg : sq * sq = wilsonArg successes n z) :
    (wilson_ci successes n z sq).2.1 ≤ (wilson_ci successes n z sq).1 ∧
    (wilson_ci successes n z sq).1 ≤ (wilson_ci successes n z sq).2.2 := by
  have hN : (0 : ℚ) < (n : ℚ) := by
    exact_mod_cast Nat.pos_of_ne_zero hn
  have hNne : (n : ℚ) ≠ 0 := ne_of_gt hN
  have hp0 : 0 ≤ (successes : ℚ) / (n : ℚ) := by positivity
  have hp1 : (successes : ℚ) / (n : ℚ) ≤ 1 := by
    rw [div_le_one hN]
    exact_mod_cast hsn
  simp only [wilsonArg] at harg
  obtain ⟨h1, h2⟩ := wilson_abs_bound z sq (n : ℚ)
    ((successes : ℚ) / (n : ℚ)) hN hz hsq harg hp0 hp1
  have hden : (0 : ℚ) < 1 + z^2 / (n : ℚ) := by positivity
  have hdenne : (1 : ℚ) + z^2 / (n : ℚ) ≠ 0 := ne_of_gt hden
  have hE : ((successes : ℚ)/(n : ℚ) + z^2/(2*(n : ℚ)))/(1 + z^2/(n : ℚ)) -
      (successes : ℚ)/(n : ℚ) =
      (z^2/(n : ℚ) * (1/2 - (successes : ℚ)/(n : ℚ)))/(1 + z^2/(n : ℚ)) := by
    field_simp
    ring
  have hdiv1 : (z^2/(n : ℚ) * (1/2 - (successes : ℚ)/(n : ℚ)))/(1 + z^2/(n : ℚ))
      ≤ (z*sq)/(1 + z^2/(n : ℚ)) := by
    gcongr
  have hdiv2 : (-(z^2/(n : ℚ) * (1/2 - (successes : ℚ)/(n : ℚ))))/(1 + z^2/(n : ℚ))
      ≤ (z*sq)/(1 + z^2/(n : ℚ)) := by
    gcongr
    linarith
  rw [neg_div] at hdiv2
  simp only [wilson_ci, hn, if_false]
  constructor
  · apply max_le hp0
    linarith [hE, hdiv1]
  · apply le_min hp1
    linarith [hE, hdiv2]

/-- C5 counterexample: on the non-degenerate data `[0, 1]` with two
bootstrap resamples that both draw index 0, the percentile interval of
the bootstrap statistics is `[0, 0]` while the point estimate (the mean)
is `1/2` — the produced MetricWithCI has `method = "bootstrap"`, a clear
degenerate flag, and violates `ci_lower ≤ value ≤ ci_upper`. -/
theorem metric_ci_bootstrap_counterexample :
    ciInvariant
      (compute_metric_with_ci 2 (1/20) [0, 1] npMean (fun _ => [0, 0])) =
      false := by
  have hmetric : compute_metric_with_ci 2 (1/20) [0, 1] npMean
      (fun _ => [0, 0]) =
      { value := some (1/2), ci_lower := some 0, ci_upper := some 0
        method := "bootstrap", n_samples := 2, is_degenerate := false } := by
    norm_num [compute_metric_with_ci, bootstrap_ci, npMean, npPercentile,
      npQuantile, sortQ, insertSorted, List.range_succ]
  rw [hmetric]
  norm_num [ciInvariant]

/-- C5 amended: the MetricWithCI invariant `ci_lower ≤ value ≤ ci_upper`
holds for every proportion interval (`compute_proportion_with_ci`, with
the Wilson branch proved outright from the square-root value's defining
equation and the exact-binomial branch granted the standard containment
property of the external scipy Beta quantiles) and for the small-stratum
normal-approximation path of `aggregate_results`; every output of
`compute_metric_with_ci` is otherwise degenerate-flagged or comes from
the bootstrap path, where the invariant can fail (see the
counterexample). -/
theorem metric_ci_invariant :
    (∀ (successes n : ℕ) (z sq low_ppf high_ppf : ℚ),
       successes ≤ n → 0 ≤ z → 0 ≤ sq →
       sq * sq = wilsonArg successes n z →
       low_ppf ≤ (successes : ℚ) / (n : ℚ) →
       (successes : ℚ) / (n : ℚ) ≤ high_ppf →
       ciInvariant
         (compute_proportion_with_ci successes n z sq low_ppf high_ppf) =
         true)
    ∧ (∀ sqrtFn : ℚ → ℚ, (∀ x : ℚ, 0 ≤ x → 0 ≤ sqrtFn x) →
       ∀ values : List ℚ,
         ciInvariant (stratumNormalApprox sqrtFn values) = true)
    ∧ (∀ (n_bootstrap : ℕ) (alpha : ℚ) (values : List ℚ)
         (stat_fn : List ℚ → ℚ) (draw : ℕ → List ℕ),
       (compute_metric_with_ci n_bootstrap alpha values stat_fn
           draw).is_degenerate = true
       ∨ (compute_metric_with_ci n_bootstrap alpha values stat_fn
           draw).method = "bootstrap") := by
  refine ⟨?_, ?_, ?_⟩
  · intro successes n z sq low_ppf high_ppf hsn hz hsq harg hlow hhigh
    by_cases hn : n = 0
    · subst hn
      simp [compute_proportion_with_ci, ciInvariant]
    · by_cases hsmall : n < 30
      · -- exact binomial branch
        have hp0 : 0 ≤ (successes : ℚ) / (n : ℚ) := by positivity
        simp only [compute_proportion_with_ci, hn, if_false, hsmall, if_true,
          exact_binomial_ci, ciInvariant]
        simp only [Bool.false_or]
        rw [decide_eq_true_eq]
        constructor
        · by_cases hz0 : successes = 0
          · simp [hz0]
          · simp only [hz0, if_false]
            exact hlow
        · by_cases hzn : successes = n
          · subst hzn
            have : (successes : ℚ) / (successes : ℚ) = 1 := by
              apply div_self
              exact_mod_cast hn
            simp [this]
          · simp only [hzn, if_false]
            exact hhigh
      · -- Wilson branch
        obtain ⟨hlo, hhi⟩ := wilson_ci_contains successes n z sq hn hsn hz hsq harg
        simp only [compute_proportion_with_ci, hn, if_false, hsmall, if_true,
          ciInvariant]
        simp only [Bool.false_or]
        rw [decide_eq_true_eq]
        exact ⟨hlo, hhi⟩
  · intro sqrtFn hs values
    have hstd : 0 ≤ (if values.length > 1 then
        sqrtFn (popVar values) / sqrtFn ((values.length : ℚ)) else 0) := by
      split
      · exact div_nonneg (hs _ (popVar_nonneg values)) (hs _ (by positivity))
      · exact le_refl 0
    simp only [stratumNormalApprox, ciInvariant, Bool.false_or]
    rw [decide_eq_true_eq]
    constructor
    · nlinarith [hstd]
    · nlinarith [hstd]
  · intro n_bootstrap alpha values stat_fn draw
    rcases values with _ | ⟨v0, rest⟩
    · left
      rfl
    · by_cases hall : ((v0 :: rest).all (fun x => decide (x = v0))) = true
      · left
        simp only [compute_metric_with_ci, hall, if_true]
      · right
        simp only [compute_metric_with_ci, hall, if_false, Bool.false_eq_true]

/-- C5 amended witness: a Wilson proportion with an exactly
representable square root (0 of 100 successes, z = 2, √ = 1/100),
the normal-approximation path with the zero square-root evaluator on
`[1, 2]`, and the degenerate-or-bootstrap dichotomy on `[1]`. -/
theorem metric_ci_invariant_witness :
    ciInvariant (compute_proportion_with_ci 0 100 2 (1/100) 0 1) = true
    ∧ ciInvariant (stratumNormalApprox (fun _ => 0) [1, 2]) = true
    ∧ ((compute_metric_with_ci 1 (1/2) [1] npMean
          (fun _ => [0])).is_degenerate = true
       ∨ (compute_metric_with_ci 1 (1/2) [1] npMean
          (fun _ => [0])).method = "bootstrap") :=
  ⟨metric_ci_invariant.1 0 100 2 (1/100) 0 1 (by norm_num) (by norm_num)
      (by norm_num) (by norm_num [wilsonArg]) (by norm_num) (by norm_num),
   metric_ci_invariant.2.1 (fun _ => 0) (fun x _ => le_refl 0) [1, 2],
   metric_ci_invariant.2.2 1 (1/2) [1] npMean (fun _ => [0])⟩

end OpenTLU
